import Mathlib

/-!
Verification of the CypherCraft password toolkit against its specification.

The development shallowly embeds the three core modules:

* `generator.py`  — cryptographically secure password generation.  Randomness
  is modelled by an explicit tape of natural numbers (`List Nat`): each call to
  the secure sampler consumes the head of the tape; `secrets.choice(s)` becomes
  indexing by `head % s.length` and `secrets.randbelow(n)` becomes `head % n`.
  All properties are proved for every tape, hence for every sequence of
  random draws.
* `entropy.py`    — strength analysis.  Python floats are modelled as real
  numbers; `round(x, 2)` is modelled as decimal rounding half-to-even on the
  exact real value; the IEEE infinity produced for astronomically large crack
  times is modelled by `Option ℝ` with `none` standing for `float("inf")`.
* `hash_utils.py` — SHA-1 hashing and the k-anonymity breach check.  The SHA-1
  digest is implemented in full over byte lists; the network collaborator is a
  parameter mapping the request URL to an outcome (success body, timeout,
  HTTP-status failure, or other transport failure), and the embedding also
  returns the list of issued requests so that the privacy contract can be
  stated.
-/

namespace CypherCraft

/-! ## Random tape

`secrets` draws are modelled by consuming an explicit tape of naturals. -/

/-- Model of `secrets.choice(s)`: pick the element indexed by the next tape
value reduced modulo the pool size. -/
def choice {α : Type} [Inhabited α] (s : List α) (r : Nat) : α :=
  s.getD (r % s.length) default

/-- Model of the list comprehension `[secrets.choice(pool) for _ in range(n)]`:
draw `n` characters in order, threading the tape. -/
def drawList {α : Type} [Inhabited α] (pool : List α) : Nat → List Nat → List α × List Nat
  | 0, t => ([], t)
  | n + 1, t =>
    let c := choice pool (t.headD 0)
    let r := drawList pool n t.tail
    (c :: r.1, r.2)

/-! ## generator.py -/

/-- Python `AMBIGUOUS_CHARS = "il1Lo0O"`. -/
def AMBIGUOUS_CHARS : List Char := ['i', 'l', '1', 'L', 'o', '0', 'O']

/-- Python `string.ascii_lowercase`. -/
def ascii_lowercase : List Char := ("abcdefghijklmnopqrstuvwxyz").toList

/-- Python `string.ascii_uppercase`. -/
def ascii_uppercase : List Char := ("ABCDEFGHIJKLMNOPQRSTUVWXYZ").toList

/-- Python `string.digits`. -/
def ascii_digits : List Char := ("0123456789").toList

/-- Python `string.punctuation`: the 32 printable ASCII characters
(codes 33–126) that are neither letters nor digits.  Built from character
codes to keep the constant readable. -/
def punctuation : List Char :=
  ((List.range 94).map (fun i => Char.ofNat (33 + i))).filter
    (fun c => !(c.isAlpha || c.isDigit))

/-- The lowercase subset used by `generate_standard`: ambiguity-filtered when
`exclude_ambiguous` is set (lines 71–74 of generator.py). -/
def lowSubset (exclude_ambiguous : Bool) : List Char :=
  if exclude_ambiguous then ascii_lowercase.filter (fun c => !(AMBIGUOUS_CHARS.contains c))
  else ascii_lowercase

/-- The uppercase subset used by `generate_standard`. -/
def upSubset (exclude_ambiguous : Bool) : List Char :=
  if exclude_ambiguous then ascii_uppercase.filter (fun c => !(AMBIGUOUS_CHARS.contains c))
  else ascii_uppercase

/-- The digit subset used by `generate_standard`. -/
def digSubset (exclude_ambiguous : Bool) : List Char :=
  if exclude_ambiguous then ascii_digits.filter (fun c => !(AMBIGUOUS_CHARS.contains c))
  else ascii_digits

/-- One conditional required draw: `if flag: required.append(secrets.choice(chars))`. -/
def drawOpt (b : Bool) (s : List Char) (t : List Nat) : List Char × List Nat :=
  if b then ([choice s (t.headD 0)], t.tail) else ([], t)

/-- The pool contribution of one class: `if flag: pool += chars`. -/
def poolIf (b : Bool) (s : List Char) : List Char := if b then s else []

/-- Simultaneous swap of positions `i` and `j`, as in the Python statement
`password_chars[i], password_chars[j] = password_chars[j], password_chars[i]`
(both right-hand sides read from the pre-swap list). -/
def swapL (l : List Char) (i j : Nat) : List Char :=
  (l.set i (l.getD j default)).set j (l.getD i default)

/-- The Fisher–Yates loop `for i in range(len - 1, 0, -1)` of generator.py
lines 106–108: at counter value `i + 1` draw `j = randbelow(i + 2)` and swap
positions `i + 1` and `j`; stop when the counter reaches 0. -/
def fyLoop : Nat → List Char → List Nat → List Char × List Nat
  | 0, l, t => (l, t)
  | i + 1, l, t => fyLoop i (swapL l (i + 1) ((t.headD 0) % (i + 2))) t.tail

/-- The sampling pool built by the four `if` blocks of `generate_standard`
(`pool += chars` for each selected class, in source order lowercase,
uppercase, numbers, symbols). -/
def gsPool (uppercase lowercase numbers symbols exclude_ambiguous : Bool) : List Char :=
  poolIf lowercase (lowSubset exclude_ambiguous) ++ poolIf uppercase (upSubset exclude_ambiguous) ++
    poolIf numbers (digSubset exclude_ambiguous) ++ poolIf symbols punctuation

/-- The `required` list built by the four `if` blocks of `generate_standard`
(one secure draw per selected class, in source order), together with the tape
left after those draws. -/
def gsRequired (uppercase lowercase numbers symbols exclude_ambiguous : Bool) (t : List Nat) :
    List Char × List Nat :=
  let d1 := drawOpt lowercase (lowSubset exclude_ambiguous) t
  let d2 := drawOpt uppercase (upSubset exclude_ambiguous) d1.2
  let d3 := drawOpt numbers (digSubset exclude_ambiguous) d2.2
  let d4 := drawOpt symbols punctuation d3.2
  (d1.1 ++ d2.1 ++ d3.1 ++ d4.1, d4.2)

/-- Embedding of `generate_standard` (generator.py lines 39–110).  Draw order
matches the source: one required draw per selected class in the order
lowercase, uppercase, numbers, symbols; then the filler draws; then the
Fisher–Yates shuffle.  The tape after the call is returned alongside the
result. -/
def generate_standard (length : Int) (uppercase lowercase numbers symbols exclude_ambiguous : Bool)
    (t : List Nat) : Except String (List Char) × List Nat :=
  let len := (max 8 (min 128 length)).toNat
  let rq := gsRequired uppercase lowercase numbers symbols exclude_ambiguous t
  let pool := gsPool uppercase lowercase numbers symbols exclude_ambiguous
  if pool.isEmpty then (Except.error ("At least one character class must be selected."), rq.2)
  else
    let fills := drawList pool (len - rq.1.length) rq.2
    let chars := rq.1 ++ fills.1
    let shuffled := fyLoop (chars.length - 1) chars fills.2
    (Except.ok shuffled.1, shuffled.2)

/-- Embedding of `generate_pin` (generator.py lines 113–124). -/
def generate_pin (length : Int) (t : List Nat) : List Char × List Nat :=
  let len := (max 4 (min 6 length)).toNat
  drawList ascii_digits len t

/-- Python `WORD_LIST` (generator.py lines 20–36). -/
def WORD_LIST : List String :=
  ["apple", "brave", "cloud", "dance", "eagle", "flame", "grace", "heart",
   "ivory", "jewel", "knack", "lunar", "maple", "night", "ocean", "pearl",
   "quest", "river", "stone", "tiger", "umbra", "vivid", "whale", "xenon",
   "yacht", "zebra", "amber", "blaze", "cedar", "drift", "ember", "frost",
   "globe", "haven", "inlet", "joker", "karma", "lemon", "mirth", "noble",
   "oasis", "prism", "quilt", "raven", "solar", "thorn", "ultra", "vigor",
   "wired", "pixel", "arrow", "brisk", "candy", "delta", "elbow", "fiery",
   "ghost", "humor", "index", "jolly", "kneel", "logic", "metal", "nerve",
   "orbit", "pulse", "quiet", "roast", "shark", "trail", "unity", "vault",
   "wagon", "yield", "bliss", "charm", "dwarf", "ethos", "fable", "glyph",
   "haste", "irony", "jazzy", "kiosk", "lyric", "mocha", "nexus", "olive",
   "piano", "reign", "spice", "tulip", "usher", "viper", "widow", "zesty",
   "acorn", "basin", "cliff", "dodge", "epoch", "flint", "grain", "hydra",
   "image", "joint", "kayak", "libra", "marsh", "north", "omega", "plume",
   "quota", "ridge", "swirl", "torch", "urban", "verge", "whisk", "axiom"]

/-- Embedding of `generate_passphrase` (generator.py lines 127–139). -/
def generate_passphrase (word_count : Int) (t : List Nat) : List Char × List Nat :=
  let wc := (max 3 (min 5 word_count)).toNat
  let ws := drawList WORD_LIST wc t
  ((String.intercalate ("-") ws.1).toList, ws.2)

/-- Loosely-typed options bag of `generate_password`: each Python dict key is
an optional field, `options.get(k, d)` becomes `field.getD d`. -/
structure GenOptions where
  type : Option String := none
  length : Option Int := none
  word_count : Option Int := none
  uppercase : Option Bool := none
  lowercase : Option Bool := none
  numbers : Option Bool := none
  symbols : Option Bool := none
  exclude_ambiguous : Option Bool := none

/-- The `{"password": ..., "type": ...}` result dict of `generate_password`. -/
structure GenResult where
  password : List Char
  type : String
deriving DecidableEq

/-- Embedding of the dispatch `generate_password` (generator.py lines 142–173).
A `ValueError` raised by `generate_standard` propagates, hence the `Except`. -/
def generate_password (options : GenOptions) (t : List Nat) :
    Except String GenResult × List Nat :=
  let pw_type := options.type.getD ("standard")
  if pw_type = "pin" then
    let r := generate_pin (options.length.getD 4) t
    (Except.ok ⟨r.1, pw_type⟩, r.2)
  else if pw_type = "passphrase" then
    let r := generate_passphrase (options.word_count.getD 4) t
    (Except.ok ⟨r.1, pw_type⟩, r.2)
  else
    let r := generate_standard (options.length.getD 16) (options.uppercase.getD true)
      (options.lowercase.getD true) (options.numbers.getD true) (options.symbols.getD true)
      (options.exclude_ambiguous.getD false) t
    (r.1.map (fun pw => ⟨pw, pw_type⟩), r.2)

/-! ## Lemmas about the random-tape primitives -/

theorem choice_mem {α : Type} [Inhabited α] {s : List α} (hs : s ≠ []) (r : Nat) :
    choice s r ∈ s := by
  have hlen : 0 < s.length := List.length_pos.2 hs
  have hidx : r % s.length < s.length := Nat.mod_lt _ hlen
  unfold choice
  rw [List.getD_eq_getElem?_getD, List.getElem?_eq_getElem hidx]
  exact List.getElem_mem hidx

theorem drawList_fst_length {α : Type} [Inhabited α] (pool : List α) :
    ∀ (n : Nat) (t : List Nat), ((drawList pool n t).1).length = n := by
  intro n
  induction n with
  | zero => intro t; rfl
  | succ k ih => intro t; simp [drawList, ih]

theorem drawList_fst_mem {α : Type} [Inhabited α] {pool : List α} (hp : pool ≠ []) :
    ∀ (n : Nat) (t : List Nat) (c : α), c ∈ (drawList pool n t).1 → c ∈ pool := by
  intro n
  induction n with
  | zero => intro t c hc; simp [drawList] at hc
  | succ k ih =>
    intro t c hc
    simp only [drawList, List.mem_cons] at hc
    rcases hc with h | h
    · exact h ▸ choice_mem hp _
    · exact ih t.tail c h

theorem drawOpt_fst_cases {b : Bool} {s : List Char} {t : List Nat} (hs : s ≠ []) :
    ∀ c ∈ (drawOpt b s t).1, b = true ∧ c ∈ s := by
  cases b with
  | false => intro c hc; simp [drawOpt] at hc
  | true =>
    intro c hc
    simp only [drawOpt, if_pos, List.mem_singleton] at hc
    exact ⟨rfl, hc ▸ choice_mem hs _⟩

theorem drawOpt_fst_of_true {s : List Char} {t : List Nat} (hs : s ≠ []) :
    ∃ c ∈ (drawOpt true s t).1, c ∈ s := by
  refine ⟨choice s (t.headD 0), ?_, choice_mem hs _⟩
  simp [drawOpt]

/-! ## The Fisher–Yates shuffle permutes its input -/

theorem getD_cons_set_perm {α : Type} [Inhabited α] (a : α) :
    ∀ (l : List α) (i : Nat), i < l.length →
      List.Perm ((l.getD i default) :: (l.set i a)) (a :: l) := by
  intro l
  induction l with
  | nil => intro i hi; simp at hi
  | cons b tl ih =>
    intro i hi
    cases i with
    | zero => simpa using List.Perm.swap a b tl
    | succ m =>
      have hm : m < tl.length := by simpa using hi
      have h1 := ih m hm
      have e1 : (b :: tl).getD (m + 1) default :: (b :: tl).set (m + 1) a
          = tl.getD m default :: b :: tl.set m a := by simp
      rw [e1]
      have p1 : List.Perm (tl.getD m default :: b :: tl.set m a)
          (b :: tl.getD m default :: tl.set m a) := List.Perm.swap _ _ _
      have p2 : List.Perm (b :: tl.getD m default :: tl.set m a) (b :: a :: tl) := h1.cons b
      have p3 : List.Perm (b :: a :: tl) (a :: b :: tl) := List.Perm.swap _ _ _
      exact (p1.trans p2).trans p3

theorem swapL_perm : ∀ (l : List Char) (i j : Nat), i < l.length → j < l.length →
    List.Perm (swapL l i j) l := by
  intro l
  induction l with
  | nil => intro i j hi; simp at hi
  | cons c tl ih =>
    intro i j hi hj
    cases i with
    | zero =>
      cases j with
      | zero => simp [swapL]
      | succ m =>
        have hm : m < tl.length := by simpa using hj
        have : swapL (c :: tl) 0 (m + 1) = tl.getD m default :: tl.set m c := by
          simp [swapL]
        rw [this]
        exact getD_cons_set_perm c tl m hm
    | succ n =>
      have hn : n < tl.length := by simpa using hi
      cases j with
      | zero =>
        have : swapL (c :: tl) (n + 1) 0 = tl.getD n default :: tl.set n c := by
          simp [swapL]
        rw [this]
        exact getD_cons_set_perm c tl n hn
      | succ m =>
        have hm : m < tl.length := by simpa using hj
        have : swapL (c :: tl) (n + 1) (m + 1) = c :: swapL tl n m := by
          simp [swapL]
        rw [this]
        exact (ih n m hn hm).cons c

theorem swapL_length (l : List Char) (i j : Nat) : (swapL l i j).length = l.length := by
  simp [swapL]

theorem fyLoop_fst_perm : ∀ (i : Nat) (l : List Char) (t : List Nat), i < l.length →
    List.Perm ((fyLoop i l t).1) l := by
  intro i
  induction i with
  | zero => intro l t _; exact List.Perm.refl l
  | succ k ih =>
    intro l t hk
    have hj : (t.headD 0) % (k + 2) < l.length := by
      have h1 : (t.headD 0) % (k + 2) < k + 2 := Nat.mod_lt _ (by omega)
      omega
    have hswap := swapL_perm l (k + 1) ((t.headD 0) % (k + 2)) hk hj
    have hlen : k < (swapL l (k + 1) ((t.headD 0) % (k + 2))).length := by
      rw [swapL_length]; omega
    exact (ih _ t.tail hlen).trans hswap

/-! ## Character-class facts (all by computation) -/

theorem lowSubset_ne_nil : ∀ b, lowSubset b ≠ [] := by intro b; cases b <;> decide

theorem upSubset_ne_nil : ∀ b, upSubset b ≠ [] := by intro b; cases b <;> decide

theorem digSubset_ne_nil : ∀ b, digSubset b ≠ [] := by intro b; cases b <;> decide

theorem punctuation_ne_nil : punctuation ≠ [] := by decide

theorem mem_lowSubset {b : Bool} {c : Char} (h : c ∈ lowSubset b) : c ∈ ascii_lowercase := by
  cases b with
  | false => exact h
  | true => exact (List.mem_filter.1 h).1

theorem mem_upSubset {b : Bool} {c : Char} (h : c ∈ upSubset b) : c ∈ ascii_uppercase := by
  cases b with
  | false => exact h
  | true => exact (List.mem_filter.1 h).1

theorem mem_digSubset {b : Bool} {c : Char} (h : c ∈ digSubset b) : c ∈ ascii_digits := by
  cases b with
  | false => exact h
  | true => exact (List.mem_filter.1 h).1

theorem low_disj : ∀ c ∈ ascii_lowercase,
    c ∉ ascii_uppercase ∧ c ∉ ascii_digits ∧ c ∉ punctuation := by decide

theorem up_disj : ∀ c ∈ ascii_uppercase,
    c ∉ ascii_lowercase ∧ c ∉ ascii_digits ∧ c ∉ punctuation := by decide

theorem dig_disj : ∀ c ∈ ascii_digits,
    c ∉ ascii_lowercase ∧ c ∉ ascii_uppercase ∧ c ∉ punctuation := by decide

theorem punct_disj : ∀ c ∈ punctuation,
    c ∉ ascii_lowercase ∧ c ∉ ascii_uppercase ∧ c ∉ ascii_digits := by decide

theorem lowSubset_no_amb : ∀ c ∈ lowSubset true, c ∉ AMBIGUOUS_CHARS := by decide

theorem upSubset_no_amb : ∀ c ∈ upSubset true, c ∉ AMBIGUOUS_CHARS := by decide

theorem digSubset_no_amb : ∀ c ∈ digSubset true, c ∉ AMBIGUOUS_CHARS := by decide

theorem punctuation_no_amb : ∀ c ∈ punctuation, c ∉ AMBIGUOUS_CHARS := by decide

/-! ## Structure of the pool and the required draws -/

theorem mem_poolIf {c : Char} {b : Bool} {s : List Char} :
    c ∈ poolIf b s ↔ (b = true ∧ c ∈ s) := by
  cases b <;> simp [poolIf]

theorem mem_gsPool_iff {c : Char} {uppercase lowercase numbers symbols exclude_ambiguous : Bool} :
    c ∈ gsPool uppercase lowercase numbers symbols exclude_ambiguous ↔
      ((lowercase = true ∧ c ∈ lowSubset exclude_ambiguous) ∨
       (uppercase = true ∧ c ∈ upSubset exclude_ambiguous) ∨
       (numbers = true ∧ c ∈ digSubset exclude_ambiguous) ∨
       (symbols = true ∧ c ∈ punctuation)) := by
  simp only [gsPool, List.mem_append, mem_poolIf]
  tauto

theorem poolIf_eq_nil {b : Bool} {s : List Char} (h : poolIf b s = []) (hs : s ≠ []) :
    b = false := by
  rcases Bool.eq_false_or_eq_true b with hb | hb
  · subst hb
    simp [poolIf] at h
    exact absurd h hs
  · exact hb

theorem gsPool_eq_nil {uppercase lowercase numbers symbols exclude_ambiguous : Bool}
    (h : gsPool uppercase lowercase numbers symbols exclude_ambiguous = []) :
    uppercase = false ∧ lowercase = false ∧ numbers = false ∧ symbols = false := by
  simp only [gsPool, List.append_eq_nil] at h
  obtain ⟨⟨⟨h1, h2⟩, h3⟩, h4⟩ := h
  exact ⟨poolIf_eq_nil h2 (upSubset_ne_nil _), poolIf_eq_nil h1 (lowSubset_ne_nil _),
    poolIf_eq_nil h3 (digSubset_ne_nil _), poolIf_eq_nil h4 punctuation_ne_nil⟩

theorem gsPool_ne_nil {uppercase lowercase numbers symbols exclude_ambiguous : Bool}
    (h : (uppercase || lowercase || numbers || symbols) = true) :
    gsPool uppercase lowercase numbers symbols exclude_ambiguous ≠ [] := by
  intro he
  obtain ⟨h1, h2, h3, h4⟩ := gsPool_eq_nil he
  subst h1; subst h2; subst h3; subst h4
  simp at h

theorem exists_mem_append_left {P : Char → Prop} {l1 l2 : List Char}
    (h : ∃ c ∈ l1, P c) : ∃ c ∈ l1 ++ l2, P c := by
  obtain ⟨c, h1, h2⟩ := h
  exact ⟨c, List.mem_append_left _ h1, h2⟩

theorem exists_mem_append_right {P : Char → Prop} {l1 l2 : List Char}
    (h : ∃ c ∈ l2, P c) : ∃ c ∈ l1 ++ l2, P c := by
  obtain ⟨c, h1, h2⟩ := h
  exact ⟨c, List.mem_append_right _ h1, h2⟩

theorem drawOpt_fst_length_le (b : Bool) (s : List Char) (t : List Nat) :
    (drawOpt b s t).1.length ≤ 1 := by
  cases b <;> simp [drawOpt]

theorem gsRequired_fst_length_le {uppercase lowercase numbers symbols exclude_ambiguous : Bool}
    {t : List Nat} :
    (gsRequired uppercase lowercase numbers symbols exclude_ambiguous t).1.length ≤ 4 := by
  simp only [gsRequired, List.length_append]
  have h1 := drawOpt_fst_length_le lowercase (lowSubset exclude_ambiguous) t
  have h2 := drawOpt_fst_length_le uppercase (upSubset exclude_ambiguous)
    (drawOpt lowercase (lowSubset exclude_ambiguous) t).2
  have h3 := drawOpt_fst_length_le numbers (digSubset exclude_ambiguous)
    (drawOpt uppercase (upSubset exclude_ambiguous)
      (drawOpt lowercase (lowSubset exclude_ambiguous) t).2).2
  have h4 := drawOpt_fst_length_le symbols punctuation
    (drawOpt numbers (digSubset exclude_ambiguous)
      (drawOpt uppercase (upSubset exclude_ambiguous)
        (drawOpt lowercase (lowSubset exclude_ambiguous) t).2).2).2
  omega

theorem gsRequired_fst_sub {uppercase lowercase numbers symbols exclude_ambiguous : Bool}
    {t : List Nat} :
    ∀ c ∈ (gsRequired uppercase lowercase numbers symbols exclude_ambiguous t).1,
      c ∈ gsPool uppercase lowercase numbers symbols exclude_ambiguous := by
  intro c hc
  simp only [gsRequired, List.mem_append] at hc
  rcases hc with ((h | h) | h) | h
  · obtain ⟨hb, hm⟩ := drawOpt_fst_cases (lowSubset_ne_nil _) c h
    exact mem_gsPool_iff.2 (Or.inl ⟨hb, hm⟩)
  · obtain ⟨hb, hm⟩ := drawOpt_fst_cases (upSubset_ne_nil _) c h
    exact mem_gsPool_iff.2 (Or.inr (Or.inl ⟨hb, hm⟩))
  · obtain ⟨hb, hm⟩ := drawOpt_fst_cases (digSubset_ne_nil _) c h
    exact mem_gsPool_iff.2 (Or.inr (Or.inr (Or.inl ⟨hb, hm⟩)))
  · obtain ⟨hb, hm⟩ := drawOpt_fst_cases punctuation_ne_nil c h
    exact mem_gsPool_iff.2 (Or.inr (Or.inr (Or.inr ⟨hb, hm⟩)))

theorem gsRequired_has_low {uppercase numbers symbols exclude_ambiguous : Bool} {t : List Nat} :
    ∃ c ∈ (gsRequired uppercase true numbers symbols exclude_ambiguous t).1,
      c ∈ lowSubset exclude_ambiguous := by
  simp only [gsRequired]
  exact exists_mem_append_left (exists_mem_append_left
    (exists_mem_append_left (drawOpt_fst_of_true (lowSubset_ne_nil _))))

theorem gsRequired_has_up {lowercase numbers symbols exclude_ambiguous : Bool} {t : List Nat} :
    ∃ c ∈ (gsRequired true lowercase numbers symbols exclude_ambiguous t).1,
      c ∈ upSubset exclude_ambiguous := by
  simp only [gsRequired]
  exact exists_mem_append_left (exists_mem_append_left
    (exists_mem_append_right (drawOpt_fst_of_true (upSubset_ne_nil _))))

theorem gsRequired_has_dig {uppercase lowercase symbols exclude_ambiguous : Bool} {t : List Nat} :
    ∃ c ∈ (gsRequired uppercase lowercase true symbols exclude_ambiguous t).1,
      c ∈ digSubset exclude_ambiguous := by
  simp only [gsRequired]
  exact exists_mem_append_left (exists_mem_append_right
    (drawOpt_fst_of_true (digSubset_ne_nil _)))

theorem gsRequired_has_sym {uppercase lowercase numbers exclude_ambiguous : Bool} {t : List Nat} :
    ∃ c ∈ (gsRequired uppercase lowercase numbers true exclude_ambiguous t).1,
      c ∈ punctuation := by
  simp only [gsRequired]
  exact exists_mem_append_right (drawOpt_fst_of_true punctuation_ne_nil)

/-! ## The master specification of `generate_standard` -/

theorem generate_standard_error (length : Int) (exclude_ambiguous : Bool) (t : List Nat) :
    generate_standard length false false false false exclude_ambiguous t =
      (Except.error ("At least one character class must be selected."), t) := rfl

theorem generate_standard_ok (length : Int)
    (uppercase lowercase numbers symbols exclude_ambiguous : Bool) (t : List Nat)
    (hflag : (uppercase || lowercase || numbers || symbols) = true) :
    ∃ pw, (generate_standard length uppercase lowercase numbers symbols exclude_ambiguous t).1
        = Except.ok pw ∧
      (pw.length : Int) = max 8 (min 128 length) ∧
      (lowercase = true → ∃ c ∈ pw, c ∈ lowSubset exclude_ambiguous) ∧
      (uppercase = true → ∃ c ∈ pw, c ∈ upSubset exclude_ambiguous) ∧
      (numbers = true → ∃ c ∈ pw, c ∈ digSubset exclude_ambiguous) ∧
      (symbols = true → ∃ c ∈ pw, c ∈ punctuation) ∧
      (∀ c ∈ pw, c ∈ gsPool uppercase lowercase numbers symbols exclude_ambiguous) := by
  have hpool_ne : gsPool uppercase lowercase numbers symbols exclude_ambiguous ≠ [] :=
    gsPool_ne_nil hflag
  have hpoolE : (gsPool uppercase lowercase numbers symbols exclude_ambiguous).isEmpty = false := by
    rcases hE : (gsPool uppercase lowercase numbers symbols exclude_ambiguous).isEmpty with _ | _
    · rfl
    · exact absurd (List.isEmpty_iff.1 hE) hpool_ne
  have hlen8 : 8 ≤ (max 8 (min 128 length)).toNat := by
    have h1 : (8 : Int) ≤ max 8 (min 128 length) := le_max_left _ _
    omega
  set lenN := (max 8 (min 128 length)).toNat with hlenN
  set rq := gsRequired uppercase lowercase numbers symbols exclude_ambiguous t with hrq
  set pool := gsPool uppercase lowercase numbers symbols exclude_ambiguous with hpool
  set fills := drawList pool (lenN - rq.1.length) rq.2 with hfills
  set chars := rq.1 ++ fills.1 with hchars
  set shuffled := fyLoop (chars.length - 1) chars fills.2 with hshuf
  have hgen : generate_standard length uppercase lowercase numbers symbols exclude_ambiguous t
      = (Except.ok shuffled.1, shuffled.2) := by
    rw [generate_standard]
    simp only [← hlenN, ← hrq, ← hpool, hpoolE, Bool.false_eq_true, if_false, ← hfills,
      ← hchars, ← hshuf]
  have hreq4 : rq.1.length ≤ 4 := gsRequired_fst_length_le
  have hfill_len : fills.1.length = lenN - rq.1.length := by
    rw [hfills]; exact drawList_fst_length _ _ _
  have hchars_len : chars.length = lenN := by
    rw [hchars, List.length_append, hfill_len]; omega
  have hperm : List.Perm shuffled.1 chars := by
    rw [hshuf]
    exact fyLoop_fst_perm _ _ _ (by omega)
  have hmem_of : ∀ c ∈ chars, c ∈ shuffled.1 := fun c hc => hperm.mem_iff.2 hc
  have hsub : ∀ c ∈ shuffled.1, c ∈ pool := by
    intro c hc
    rcases List.mem_append.1 (hperm.mem_iff.1 hc) with h | h
    · exact gsRequired_fst_sub c h
    · exact drawList_fst_mem hpool_ne _ _ c (hfills ▸ h)
  refine ⟨shuffled.1, by rw [hgen], ?_, ?_, ?_, ?_, ?_, hsub⟩
  · have : shuffled.1.length = lenN := by rw [hperm.length_eq, hchars_len]
    rw [this, hlenN]
    have h0 : (0 : Int) ≤ max 8 (min 128 length) := le_trans (by norm_num) (le_max_left _ _)
    omega
  · intro hlow
    subst hlow
    obtain ⟨c, hc1, hc2⟩ := gsRequired_has_low (t := t)
    exact ⟨c, hmem_of c (List.mem_append_left _ (hrq ▸ hc1)), hc2⟩
  · intro hup
    subst hup
    obtain ⟨c, hc1, hc2⟩ := gsRequired_has_up (t := t)
    exact ⟨c, hmem_of c (List.mem_append_left _ (hrq ▸ hc1)), hc2⟩
  · intro hnum
    subst hnum
    obtain ⟨c, hc1, hc2⟩ := gsRequired_has_dig (t := t)
    exact ⟨c, hmem_of c (List.mem_append_left _ (hrq ▸ hc1)), hc2⟩
  · intro hsym
    subst hsym
    obtain ⟨c, hc1, hc2⟩ := gsRequired_has_sym (t := t)
    exact ⟨c, hmem_of c (List.mem_append_left _ (hrq ▸ hc1)), hc2⟩

/-- C1: for every call to `generate_standard` with at least one class flag true,
any integer length, any ambiguity setting and any random tape, the result is a
password (no error) whose length is exactly `clamp(length, 8, 128)`, which
contains at least one character from every selected class's (possibly
ambiguity-filtered) subset, no character from any unselected class, and — when
`exclude_ambiguous` is true — none of the characters `il1Lo0O`. -/
theorem c1_generate_standard_contract (length : Int)
    (uppercase lowercase numbers symbols exclude_ambiguous : Bool) (t : List Nat)
    (hflag : (uppercase || lowercase || numbers || symbols) = true) :
    ∃ pw, (generate_standard length uppercase lowercase numbers symbols exclude_ambiguous t).1
        = Except.ok pw ∧
      (pw.length : Int) = max 8 (min 128 length) ∧
      (lowercase = true → ∃ c ∈ pw, c ∈ lowSubset exclude_ambiguous) ∧
      (uppercase = true → ∃ c ∈ pw, c ∈ upSubset exclude_ambiguous) ∧
      (numbers = true → ∃ c ∈ pw, c ∈ digSubset exclude_ambiguous) ∧
      (symbols = true → ∃ c ∈ pw, c ∈ punctuation) ∧
      (lowercase = false → ∀ c ∈ pw, c ∉ ascii_lowercase) ∧
      (uppercase = false → ∀ c ∈ pw, c ∉ ascii_uppercase) ∧
      (numbers = false → ∀ c ∈ pw, c ∉ ascii_digits) ∧
      (symbols = false → ∀ c ∈ pw, c ∉ punctuation) ∧
      (exclude_ambiguous = true → ∀ c ∈ pw, c ∉ AMBIGUOUS_CHARS) := by
  obtain ⟨pw, hok, hlen, hl, hu, hn, hs, hsub⟩ :=
    generate_standard_ok length uppercase lowercase numbers symbols exclude_ambiguous t hflag
  refine ⟨pw, hok, hlen, hl, hu, hn, hs, ?_, ?_, ?_, ?_, ?_⟩
  · intro hb0 c hc
    rcases mem_gsPool_iff.1 (hsub c hc) with ⟨hb, hm⟩ | ⟨hb, hm⟩ | ⟨hb, hm⟩ | ⟨hb, hm⟩
    · simp [hb0] at hb
    · exact (up_disj c (mem_upSubset hm)).1
    · exact (dig_disj c (mem_digSubset hm)).1
    · exact (punct_disj c hm).1
  · intro hb0 c hc
    rcases mem_gsPool_iff.1 (hsub c hc) with ⟨hb, hm⟩ | ⟨hb, hm⟩ | ⟨hb, hm⟩ | ⟨hb, hm⟩
    · exact (low_disj c (mem_lowSubset hm)).1
    · simp [hb0] at hb
    · exact (dig_disj c (mem_digSubset hm)).2.1
    · exact (punct_disj c hm).2.1
  · intro hb0 c hc
    rcases mem_gsPool_iff.1 (hsub c hc) with ⟨hb, hm⟩ | ⟨hb, hm⟩ | ⟨hb, hm⟩ | ⟨hb, hm⟩
    · exact (low_disj c (mem_lowSubset hm)).2.1
    · exact (up_disj c (mem_upSubset hm)).2.1
    · simp [hb0] at hb
    · exact (punct_disj c hm).2.2
  · intro hb0 c hc
    rcases mem_gsPool_iff.1 (hsub c hc) with ⟨hb, hm⟩ | ⟨hb, hm⟩ | ⟨hb, hm⟩ | ⟨hb, hm⟩
    · exact (low_disj c (mem_lowSubset hm)).2.2
    · exact (up_disj c (mem_upSubset hm)).2.2
    · exact (dig_disj c (mem_digSubset hm)).2.2
    · simp [hb0] at hb
  · intro hex c hc
    subst hex
    rcases mem_gsPool_iff.1 (hsub c hc) with ⟨hb, hm⟩ | ⟨hb, hm⟩ | ⟨hb, hm⟩ | ⟨hb, hm⟩
    · exact lowSubset_no_amb c hm
    · exact upSubset_no_amb c hm
    · exact digSubset_no_amb c hm
    · exact punctuation_no_amb c hm

/-- Witness for C1 at a concrete input: all four classes selected, ambiguity
exclusion on, requested length 16, an arbitrary concrete tape. -/
theorem c1_generate_standard_contract_witness :
    ∃ pw, (generate_standard 16 true true true true true [3, 1, 4, 1, 5]).1 = Except.ok pw ∧
      (pw.length : Int) = max 8 (min 128 16) ∧
      (true = true → ∃ c ∈ pw, c ∈ lowSubset true) ∧
      (true = true → ∃ c ∈ pw, c ∈ upSubset true) ∧
      (true = true → ∃ c ∈ pw, c ∈ digSubset true) ∧
      (true = true → ∃ c ∈ pw, c ∈ punctuation) ∧
      (true = false → ∀ c ∈ pw, c ∉ ascii_lowercase) ∧
      (true = false → ∀ c ∈ pw, c ∉ ascii_uppercase) ∧
      (true = false → ∀ c ∈ pw, c ∉ ascii_digits) ∧
      (true = false → ∀ c ∈ pw, c ∉ punctuation) ∧
      (true = true → ∀ c ∈ pw, c ∉ AMBIGUOUS_CHARS) :=
  c1_generate_standard_contract 16 true true true true true [3, 1, 4, 1, 5] (by decide)

/-- C4: `generate_standard` raises its validation error exactly when all four
class flags are false, in which case the random tape is untouched (the error is
detected before any draw); for every other flag combination — and any requested
length, in particular out-of-range ones, which are clamped, not rejected — the
call returns a generated password and no error. -/
theorem c4_generate_standard_validation (length : Int)
    (uppercase lowercase numbers symbols exclude_ambiguous : Bool) (t : List Nat) :
    ((uppercase = false ∧ lowercase = false ∧ numbers = false ∧ symbols = false) →
      generate_standard length uppercase lowercase numbers symbols exclude_ambiguous t =
        (Except.error ("At least one character class must be selected."), t)) ∧
    ((uppercase || lowercase || numbers || symbols) = true →
      ∃ pw, (generate_standard length uppercase lowercase numbers symbols exclude_ambiguous t).1
          = Except.ok pw ∧ (pw.length : Int) = max 8 (min 128 length)) := by
  constructor
  · rintro ⟨h1, h2, h3, h4⟩
    subst h1; subst h2; subst h3; subst h4
    exact generate_standard_error length exclude_ambiguous t
  · intro hflag
    obtain ⟨pw, hok, hlen, -⟩ :=
      generate_standard_ok length uppercase lowercase numbers symbols exclude_ambiguous t hflag
    exact ⟨pw, hok, hlen⟩

/-- Witness for C4 at a concrete input: all flags false yields the validation
error with the tape untouched. -/
theorem c4_generate_standard_validation_witness :
    generate_standard 16 false false false false false [1, 2, 3] =
      (Except.error ("At least one character class must be selected."), [1, 2, 3]) :=
  (c4_generate_standard_validation 16 false false false false false [1, 2, 3]).1
    ⟨rfl, rfl, rfl, rfl⟩

/-- C10: for every options bag whose `type` value is neither `"pin"` nor
`"passphrase"` (unknown kinds included), `generate_password` produces its
secret by standard generation with the documented defaults, and the `type`
field of the result echoes the supplied `type` value verbatim. -/
theorem c10_generate_password_unknown_type (options : GenOptions) (t : List Nat)
    (h1 : options.type.getD ("standard") ≠ "pin")
    (h2 : options.type.getD ("standard") ≠ "passphrase") :
    generate_password options t =
      ((generate_standard (options.length.getD 16) (options.uppercase.getD true)
          (options.lowercase.getD true) (options.numbers.getD true)
          (options.symbols.getD true) (options.exclude_ambiguous.getD false) t).1.map
        (fun pw => ⟨pw, options.type.getD ("standard")⟩),
       (generate_standard (options.length.getD 16) (options.uppercase.getD true)
          (options.lowercase.getD true) (options.numbers.getD true)
          (options.symbols.getD true) (options.exclude_ambiguous.getD false) t).2) ∧
    (∀ res, (generate_password options t).1 = Except.ok res →
      res.type = options.type.getD ("standard")) := by
  have hdisp : generate_password options t =
      ((generate_standard (options.length.getD 16) (options.uppercase.getD true)
          (options.lowercase.getD true) (options.numbers.getD true)
          (options.symbols.getD true) (options.exclude_ambiguous.getD false) t).1.map
        (fun pw => ⟨pw, options.type.getD ("standard")⟩),
       (generate_standard (options.length.getD 16) (options.uppercase.getD true)
          (options.lowercase.getD true) (options.numbers.getD true)
          (options.symbols.getD true) (options.exclude_ambiguous.getD false) t).2) := by
    simp only [generate_password, if_neg h1, if_neg h2]
  refine ⟨hdisp, ?_⟩
  intro res hres
  rw [hdisp] at hres
  rcases hgs : (generate_standard (options.length.getD 16) (options.uppercase.getD true)
      (options.lowercase.getD true) (options.numbers.getD true)
      (options.symbols.getD true) (options.exclude_ambiguous.getD false) t).1 with e | pw
  · rw [hgs] at hres
    simp [Except.map] at hres
  · rw [hgs] at hres
    simp only [Except.map, Except.ok.injEq] at hres
    rw [← hres]

/-- Witness for C10 at a concrete input: the unknown kind string `"hello"` is
echoed back verbatim. -/
theorem c10_generate_password_unknown_type_witness :
    generate_password { type := some ("hello") } [0, 1, 2] =
      ((generate_standard 16 true true true true false [0, 1, 2]).1.map
        (fun pw => ⟨pw, "hello"⟩),
       (generate_standard 16 true true true true false [0, 1, 2]).2) ∧
    (∀ res, (generate_password { type := some ("hello") } [0, 1, 2]).1 = Except.ok res →
      res.type = "hello") :=
  c10_generate_password_unknown_type { type := some ("hello") } [0, 1, 2]
    (by decide) (by decide)

/-! ## entropy.py

Python floats are modelled by real numbers.  `float("inf")`, produced by
`analyze_password` for astronomically large crack times, is modelled by
`Option ℝ` with `none` for infinity: every comparison `inf < c` is false and
`inf / c = inf` for the positive constants involved, which is exactly how
`_format_crack_time` falls through every branch to "Virtually uncrackable"
on an infinite input. -/

/-- Python `GUESSES_PER_SECOND = 10_000_000_000`. -/
def GUESSES_PER_SECOND : Nat := 10000000000

/-- Membership test equivalent to the regex `[^a-zA-Z0-9]` used in entropy.py. -/
def isSymbolChar (c : Char) : Bool := !(c.isLower || c.isUpper || c.isDigit)

/-- Embedding of `_get_charset_size` (entropy.py lines 21–38): the sum of the
fixed bucket sizes of the character classes present in the password. -/
def _get_charset_size (password : List Char) : Nat :=
  (if password.any Char.isLower then 26 else 0) +
    (if password.any Char.isUpper then 26 else 0) +
    (if password.any Char.isDigit then 10 else 0) +
    (if password.any isSymbolChar then 32 else 0)

/-- The result of `_format_crack_time`, one constructor per branch of
entropy.py lines 41–66, carrying the real number that the Python code would
format into the f-string (decimal string formatting itself is presentation
and is not modelled). -/
inductive CrackLabel where
  | instantly
  | lessThanSecond
  | seconds (x : ℝ)
  | minutes (x : ℝ)
  | hours (x : ℝ)
  | days (x : ℝ)
  | years (x : ℝ)
  | centuries (x : ℝ)
  | uncrackable

/-- The `{label, color}` dict of `_get_strength_label`. -/
structure StrengthInfo where
  label : String
  color : String
deriving DecidableEq

/-- The policy dict of `analyze_password`. -/
structure PolicyInfo where
  min_length : Bool
  has_uppercase : Bool
  has_lowercase : Bool
  has_number : Bool
  has_symbol : Bool
deriving DecidableEq

/-- The analysis dict returned by `analyze_password`. -/
structure AnalysisResult where
  length : Nat
  charset_size : Nat
  entropy : ℝ
  crack_time : CrackLabel
  crack_time_seconds : ℝ
  strength : StrengthInfo
  policy : PolicyInfo

/-- Embedding of `_format_crack_time` (entropy.py lines 41–66) on the
infinity-extended seconds value. -/
noncomputable def _format_crack_time : Option ℝ → CrackLabel
  | none => CrackLabel.uncrackable
  | some seconds =>
    if seconds < 0.001 then CrackLabel.instantly
    else if seconds < 1 then CrackLabel.lessThanSecond
    else if seconds < 60 then CrackLabel.seconds seconds
    else if seconds < 3600 then CrackLabel.minutes (seconds / 60)
    else if seconds < 86400 then CrackLabel.hours (seconds / 3600)
    else if seconds < 31536000 then CrackLabel.days (seconds / 86400)
    else
      let years := seconds / 31536000
      if years < 100 then CrackLabel.years years
      else if years < 10000 then CrackLabel.centuries (years / 100)
      else CrackLabel.uncrackable

/-- Embedding of `_get_strength_label` (entropy.py lines 69–84). -/
noncomputable def _get_strength_label (entropy : ℝ) : StrengthInfo :=
  if entropy < 28 then { label := "Very Weak", color := "#ef4444" }
  else if entropy < 36 then { label := "Weak", color := "#f97316" }
  else if entropy < 60 then { label := "Moderate", color := "#eab308" }
  else if entropy < 80 then { label := "Strong", color := "#22c55e" }
  else { label := "Very Strong", color := "#06b6d4" }

/-- Model of Python `round(x, 2)`: round `100 x` to the nearest integer, ties
to even, then divide by 100.  (Python rounds the binary double to the nearest
representable hundredth; on the exact real values arising here the decimal
half-to-even rule is the faithful idealisation, and no tie occurs in any
statement below.) -/
noncomputable def round2 (x : ℝ) : ℝ :=
  let y := 100 * x
  let f := ⌊y⌋
  let n : ℤ :=
    if y - f < 1 / 2 then f
    else if y - f > 1 / 2 then f + 1
    else if Even f then f else f + 1
  (n : ℝ) / 100

/-- The raw (pre-rounding) entropy of entropy.py line 125:
`length * log2(charset_size) if charset_size > 0 else 0`. -/
noncomputable def rawEntropy (password : List Char) : ℝ :=
  if _get_charset_size password > 0 then
    (password.length : ℝ) * Real.logb 2 (_get_charset_size password)
  else 0

/-- The log-domain crack-time computation of entropy.py lines 130–132:
`log_seconds = entropy*log10(2) - log10(GUESSES_PER_SECOND)`. -/
noncomputable def logSeconds (entropy : ℝ) : ℝ :=
  entropy * Real.logb 10 2 - Real.logb 10 (GUESSES_PER_SECOND : ℝ)

/-- The crack-time-in-seconds computation of entropy.py lines 128–139, with
`none` for `float("inf")`. -/
noncomputable def crackOpt (entropy : ℝ) : Option ℝ :=
  if entropy > 0 then
    if logSeconds entropy > 30 then none else some ((10 : ℝ) ^ logSeconds entropy)
  else some 0

/-- The surfaced `crack_time_seconds` field: `inf` is reported as `-1`
(entropy.py line 146). -/
noncomputable def sentinelSeconds : Option ℝ → ℝ
  | none => -1
  | some s => s

/-- Embedding of `analyze_password` (entropy.py lines 87–155). -/
noncomputable def analyze_password (password : List Char) : AnalysisResult :=
  if password.isEmpty then
    { length := 0, charset_size := 0, entropy := 0, crack_time := CrackLabel.instantly,
      crack_time_seconds := 0, strength := { label := "Very Weak", color := "#ef4444" },
      policy := { min_length := false, has_uppercase := false, has_lowercase := false,
                  has_number := false, has_symbol := false } }
  else
    let entropy := rawEntropy password
    let cOpt := crackOpt entropy
    { length := password.length,
      charset_size := _get_charset_size password,
      entropy := round2 entropy,
      crack_time := _format_crack_time cOpt,
      crack_time_seconds := sentinelSeconds cOpt,
      strength := _get_strength_label entropy,
      policy := { min_length := decide (8 ≤ password.length),
                  has_uppercase := password.any Char.isUpper,
                  has_lowercase := password.any Char.isLower,
                  has_number := password.any Char.isDigit,
                  has_symbol := password.any isSymbolChar } }

/-! ## Lemmas for the entropy analysis -/

theorem analyze_password_nonempty (password : List Char) (h : password ≠ []) :
    analyze_password password =
      { length := password.length,
        charset_size := _get_charset_size password,
        entropy := round2 (rawEntropy password),
        crack_time := _format_crack_time (crackOpt (rawEntropy password)),
        crack_time_seconds := sentinelSeconds (crackOpt (rawEntropy password)),
        strength := _get_strength_label (rawEntropy password),
        policy := { min_length := decide (8 ≤ password.length),
                    has_uppercase := password.any Char.isUpper,
                    has_lowercase := password.any Char.isLower,
                    has_number := password.any Char.isDigit,
                    has_symbol := password.any isSymbolChar } } := by
  have hE : password.isEmpty = false := by
    cases password with
    | nil => exact absurd rfl h
    | cons a l => rfl
  rw [analyze_password]
  simp [hE]

theorem round2_eq_of_lt_half (x : ℝ) (n : ℤ) (h1 : (n : ℝ) ≤ 100 * x)
    (h2 : 100 * x < n + 1 / 2) : round2 x = (n : ℝ) / 100 := by
  have hf : ⌊(100 : ℝ) * x⌋ = n := by
    rw [Int.floor_eq_iff]
    exact ⟨h1, by linarith⟩
  simp only [round2, hf]
  rw [if_pos (by linarith)]

theorem logb2_26_gt : (47 : ℝ) / 10 < Real.logb 2 26 := by
  have ha : ((2 : ℝ) ^ (47 : ℕ)) < 26 ^ (10 : ℕ) := by norm_num
  have hb := Real.logb_lt_logb (b := 2) (by norm_num) (by positivity) ha
  rw [Real.logb_pow, Real.logb_pow, Real.logb_self_eq_one (by norm_num)] at hb
  norm_num at hb
  linarith

theorem logb2_26_lt : Real.logb 2 26 < (941 : ℝ) / 200 := by
  have ha : ((26 : ℝ) ^ (200 : ℕ)) < 2 ^ (941 : ℕ) := by norm_num
  have hb := Real.logb_lt_logb (b := 2) (by norm_num) (by positivity) ha
  rw [Real.logb_pow, Real.logb_pow, Real.logb_self_eq_one (by norm_num)] at hb
  norm_num at hb
  linarith

theorem logb10_guesses : Real.logb 10 (GUESSES_PER_SECOND : ℝ) = 10 := by
  have h : (GUESSES_PER_SECOND : ℝ) = 10 ^ (10 : ℕ) := by norm_num [GUESSES_PER_SECOND]
  rw [h, Real.logb_pow, Real.logb_self_eq_one (by norm_num)]
  norm_num

theorem charset_single_a : _get_charset_size [('a')] = 26 := by decide

theorem rawEntropy_single_a : rawEntropy [('a')] = Real.logb 2 26 := by
  rw [rawEntropy, charset_single_a]
  norm_num

/-! ## Claims about the entropy analysis -/

/-- C9: `analyze_password` on the empty string raises no error and returns the
fixed zero result: length 0, charset_size 0, entropy 0, crack_time_seconds 0,
strength "Very Weak" (red), and all five policy flags false. -/
theorem c9_analyze_empty_result :
    (analyze_password []).length = 0 ∧
    (analyze_password []).charset_size = 0 ∧
    (analyze_password []).entropy = 0 ∧
    (analyze_password []).crack_time_seconds = 0 ∧
    (analyze_password []).crack_time = CrackLabel.instantly ∧
    (analyze_password []).strength = { label := "Very Weak", color := "#ef4444" } ∧
    (analyze_password []).policy = { min_length := false, has_uppercase := false,
                                     has_lowercase := false, has_number := false,
                                     has_symbol := false } := by
  refine ⟨?_, ?_, ?_, ?_, ?_, ?_, ?_⟩ <;> simp [analyze_password]

/-- C8: the strength bands are half-open on the lower bound, applied in
ascending order with the first match winning, and the four boundary samples
from the specification land where it says. -/
theorem c8_strength_label_bands :
    (∀ e : ℝ, e < 28 → _get_strength_label e = { label := "Very Weak", color := "#ef4444" }) ∧
    (∀ e : ℝ, 28 ≤ e → e < 36 → _get_strength_label e = { label := "Weak", color := "#f97316" }) ∧
    (∀ e : ℝ, 36 ≤ e → e < 60 →
      _get_strength_label e = { label := "Moderate", color := "#eab308" }) ∧
    (∀ e : ℝ, 60 ≤ e → e < 80 →
      _get_strength_label e = { label := "Strong", color := "#22c55e" }) ∧
    (∀ e : ℝ, 80 ≤ e → _get_strength_label e = { label := "Very Strong", color := "#06b6d4" }) ∧
    _get_strength_label 27.99 = { label := "Very Weak", color := "#ef4444" } ∧
    _get_strength_label 28 = { label := "Weak", color := "#f97316" } ∧
    _get_strength_label 79.99 = { label := "Strong", color := "#22c55e" } ∧
    _get_strength_label 80 = { label := "Very Strong", color := "#06b6d4" } := by
  refine ⟨?_, ?_, ?_, ?_, ?_, ?_, ?_, ?_, ?_⟩
  · intro e h
    rw [_get_strength_label, if_pos h]
  · intro e h1 h2
    rw [_get_strength_label, if_neg (by linarith), if_pos h2]
  · intro e h1 h2
    rw [_get_strength_label, if_neg (by linarith), if_neg (by linarith), if_pos h2]
  · intro e h1 h2
    rw [_get_strength_label, if_neg (by linarith), if_neg (by linarith), if_neg (by linarith),
      if_pos h2]
  · intro e h1
    rw [_get_strength_label, if_neg (by linarith), if_neg (by linarith), if_neg (by linarith),
      if_neg (by linarith)]
  · rw [_get_strength_label, if_pos (by norm_num)]
  · rw [_get_strength_label, if_neg (by norm_num), if_pos (by norm_num)]
  · rw [_get_strength_label, if_neg (by norm_num), if_neg (by norm_num), if_neg (by norm_num),
      if_pos (by norm_num)]
  · rw [_get_strength_label, if_neg (by norm_num), if_neg (by norm_num), if_neg (by norm_num),
      if_neg (by norm_num)]

/-- Witness for C8 at the concrete entropy value 27. -/
theorem c8_strength_label_bands_witness :
    _get_strength_label 27 = { label := "Very Weak", color := "#ef4444" } :=
  c8_strength_label_bands.1 27 (by norm_num)

/-- C5 counterexample: the claim "analyze_password reports entropy equal to
length × log2(charset_size)" fails at the concrete password `"a"`, because the
code rounds the reported entropy to two decimal places
(`round(entropy, 2)`, entropy.py line 144): the reported value is 4.7 while
1 × log2(26) = 4.70043…. -/
theorem c5_entropy_exact_counterexample :
    ¬((analyze_password [('a')]).entropy =
      ((analyze_password [('a')]).length : ℝ) *
        Real.logb 2 ((analyze_password [('a')]).charset_size)) := by
  rw [analyze_password_nonempty _ (by decide)]
  simp only [charset_single_a, rawEntropy_single_a, List.length_singleton, Nat.cast_one,
    Nat.cast_ofNat, one_mul]
  have hgt := logb2_26_gt
  have hlt := logb2_26_lt
  have hround : round2 (Real.logb 2 26) = ((470 : ℤ) : ℝ) / 100 :=
    round2_eq_of_lt_half _ 470 (by push_cast; linarith) (by push_cast; linarith)
  rw [hround]
  intro hEq
  push_cast at hEq
  linarith

/-- C5 (amended): for every non-empty password, `analyze_password` reports
`charset_size` as the sum of the fixed buckets present (lowercase +26,
uppercase +26, digits +10, any non-alphanumeric +32 — coverage buckets, not
distinct characters), and reports `entropy` as length × log2(charset_size)
**rounded to two decimal places** (0 if charset_size = 0). -/
theorem c5_charset_and_rounded_entropy (password : List Char) (h : password ≠ []) :
    (analyze_password password).charset_size =
      ((if password.any Char.isLower then 26 else 0) +
        (if password.any Char.isUpper then 26 else 0) +
        (if password.any Char.isDigit then 10 else 0) +
        (if password.any isSymbolChar then 32 else 0)) ∧
    (analyze_password password).entropy =
      round2 (if 0 < _get_charset_size password then
        (password.length : ℝ) * Real.logb 2 (_get_charset_size password) else 0) := by
  rw [analyze_password_nonempty password h]
  exact ⟨rfl, rfl⟩

/-- Witness for C5 (amended) at the concrete password `"a"`. -/
theorem c5_charset_and_rounded_entropy_witness :
    (analyze_password [('a')]).charset_size =
      ((if [('a')].any Char.isLower then 26 else 0) +
        (if [('a')].any Char.isUpper then 26 else 0) +
        (if [('a')].any Char.isDigit then 10 else 0) +
        (if [('a')].any isSymbolChar then 32 else 0)) ∧
    (analyze_password [('a')]).entropy =
      round2 (if 0 < _get_charset_size [('a')] then
        (([('a')] : List Char).length : ℝ) * Real.logb 2 (_get_charset_size [('a')]) else 0) :=
  c5_charset_and_rounded_entropy [('a')] (by decide)

/-- C6: for every password with positive (raw) entropy, the crack time is
computed in the log domain as `log10(seconds) = entropy*log10(2) - 10`
(with 10 = log10 of the 10^10 guesses/second rate); when that value exceeds
30 the surfaced `crack_time_seconds` is the sentinel −1 and the label is
"Virtually uncrackable", and otherwise `crack_time_seconds = 10 ^ log10(seconds)`. -/
theorem c6_crack_time_model (password : List Char) (hpos : 0 < rawEntropy password) :
    logSeconds (rawEntropy password) = rawEntropy password * Real.logb 10 2 - 10 ∧
    (logSeconds (rawEntropy password) > 30 →
      (analyze_password password).crack_time_seconds = -1 ∧
      (analyze_password password).crack_time = CrackLabel.uncrackable) ∧
    (logSeconds (rawEntropy password) ≤ 30 →
      (analyze_password password).crack_time_seconds
        = (10 : ℝ) ^ logSeconds (rawEntropy password)) := by
  have hne : password ≠ [] := by
    intro h0
    rw [h0] at hpos
    norm_num [rawEntropy, _get_charset_size] at hpos
  rw [analyze_password_nonempty password hne]
  refine ⟨?_, ?_, ?_⟩
  · rw [logSeconds, logb10_guesses]
  · intro hgt
    simp only [crackOpt, if_pos hpos, if_pos hgt]
    exact ⟨rfl, rfl⟩
  · intro hle
    simp only [crackOpt, if_pos hpos, if_neg (not_lt.2 hle)]
    rfl

/-- Witness for C6 at the concrete password `"a"` (raw entropy log2(26) > 0). -/
theorem c6_crack_time_model_witness :
    (0 : ℝ) < rawEntropy [('a')] ∧
    (logSeconds (rawEntropy [('a')]) = rawEntropy [('a')] * Real.logb 10 2 - 10 ∧
    (logSeconds (rawEntropy [('a')]) > 30 →
      (analyze_password [('a')]).crack_time_seconds = -1 ∧
      (analyze_password [('a')]).crack_time = CrackLabel.uncrackable) ∧
    (logSeconds (rawEntropy [('a')]) ≤ 30 →
      (analyze_password [('a')]).crack_time_seconds
        = (10 : ℝ) ^ logSeconds (rawEntropy [('a')]))) := by
  have hpos : (0 : ℝ) < rawEntropy [('a')] := by
    rw [rawEntropy_single_a]
    exact Real.logb_pos (by norm_num) (by norm_num)
  exact ⟨hpos, c6_crack_time_model [('a')] hpos⟩

/-! ## hash_utils.py — SHA-1

`hashlib.sha1(text.encode("utf-8")).hexdigest().upper()` is embedded in full:
UTF-8 encoding of the characters, standard SHA-1 padding and compression over
byte lists (all 32-bit words are `Nat`s reduced mod 2^32), and an uppercase
hexadecimal rendering of the 20-byte digest (the composition of `hexdigest()`
and `.upper()`). -/

/-- UTF-8 encoding of a single code point. -/
def utf8EncodeChar (c : Char) : List Nat :=
  let n := c.toNat
  if n < 128 then [n]
  else if n < 2048 then [192 + n / 64, 128 + n % 64]
  else if n < 65536 then [224 + n / 4096, 128 + (n / 64) % 64, 128 + n % 64]
  else [240 + n / 262144, 128 + (n / 4096) % 64, 128 + (n / 64) % 64, 128 + n % 64]

/-- UTF-8 encoding of a string (Python `text.encode("utf-8")`). -/
def utf8Encode (s : String) : List Nat := s.data.flatMap utf8EncodeChar

/-- Left rotation of a 32-bit word by `k` bits. -/
def rotl32 (k n : Nat) : Nat := (((n <<< k) % 4294967296) ||| (n >>> (32 - k)))

/-- SHA-1 message padding: append `0x80`, zero bytes up to 56 mod 64, then the
original bit length as 8 big-endian bytes. -/
def sha1Pad (msg : List Nat) : List Nat :=
  let ml := 8 * msg.length
  let padLen := (119 - msg.length % 64) % 64
  msg ++ [128] ++ List.replicate padLen 0 ++
    [(ml >>> 56) % 256, (ml >>> 48) % 256, (ml >>> 40) % 256, (ml >>> 32) % 256,
     (ml >>> 24) % 256, (ml >>> 16) % 256, (ml >>> 8) % 256, ml % 256]

/-- Split a byte list into 64-byte blocks. -/
def chunk64 : List Nat → List (List Nat)
  | [] => []
  | b :: l => (b :: l).take 64 :: chunk64 ((b :: l).drop 64)
termination_by l => l.length
decreasing_by simp only [List.length_drop, List.length_cons]; omega

/-- Split a block into 4-byte groups. -/
def chunk4 : List Nat → List (List Nat)
  | [] => []
  | b :: l => (b :: l).take 4 :: chunk4 ((b :: l).drop 4)
termination_by l => l.length
decreasing_by simp only [List.length_drop, List.length_cons]; omega

/-- Big-endian 32-bit word from up to four bytes. -/
def bytesToWord (l : List Nat) : Nat := l.foldl (fun acc b => acc * 256 + b) 0

/-- The SHA-1 round function `f`. -/
def sha1F (t b c d : Nat) : Nat :=
  if t < 20 then (b &&& c) ||| ((b ^^^ 4294967295) &&& d)
  else if t < 40 then b ^^^ c ^^^ d
  else if t < 60 then (b &&& c) ||| (b &&& d) ||| (c &&& d)
  else b ^^^ c ^^^ d

/-- The SHA-1 round constants. -/
def sha1K (t : Nat) : Nat :=
  if t < 20 then 1518500249
  else if t < 40 then 1859775393
  else if t < 60 then 2400959708
  else 3395469782

/-- Extend the 16 message-schedule words to 80 (`fuel` applications of the
recurrence `w[i] = rotl1(w[i-3] xor w[i-8] xor w[i-14] xor w[i-16])`). -/
def sha1Extend (ws : List Nat) : Nat → List Nat
  | 0 => ws
  | fuel + 1 =>
    let n := ws.length
    sha1Extend (ws ++ [rotl32 1 ((ws.getD (n - 3) 0) ^^^ (ws.getD (n - 8) 0) ^^^
      (ws.getD (n - 14) 0) ^^^ (ws.getD (n - 16) 0))]) fuel

/-- One SHA-1 round on the five-word state. -/
def sha1Round (w : List Nat) (st : Nat × Nat × Nat × Nat × Nat) (t : Nat) :
    Nat × Nat × Nat × Nat × Nat :=
  let a := st.1
  let b := st.2.1
  let c := st.2.2.1
  let d := st.2.2.2.1
  let e := st.2.2.2.2
  ((rotl32 5 a + sha1F t b c d + e + sha1K t + w.getD t 0) % 4294967296,
   a, rotl32 30 b, c, d)

/-- Process one 64-byte block. -/
def sha1Block (h : Nat × Nat × Nat × Nat × Nat) (block : List Nat) :
    Nat × Nat × Nat × Nat × Nat :=
  let ws := sha1Extend ((chunk4 block).map bytesToWord) 64
  let r := (List.range 80).foldl (sha1Round ws) h
  ((h.1 + r.1) % 4294967296, (h.2.1 + r.2.1) % 4294967296, (h.2.2.1 + r.2.2.1) % 4294967296,
   (h.2.2.2.1 + r.2.2.2.1) % 4294967296, (h.2.2.2.2 + r.2.2.2.2) % 4294967296)

/-- The five 32-bit hash words of a byte message. -/
def sha1Words (msg : List Nat) : Nat × Nat × Nat × Nat × Nat :=
  (chunk64 (sha1Pad msg)).foldl sha1Block
    (1732584193, 4023233417, 2562383102, 271733878, 3285377520)

/-- One uppercase hexadecimal digit (`hexdigest().upper()` composed). -/
def hexDigit (n : Nat) : Char := if n < 10 then Char.ofNat (48 + n) else Char.ofNat (55 + n)

/-- Eight uppercase hexadecimal characters of one 32-bit word. -/
def wordHex (w : Nat) : List Char :=
  [hexDigit ((w >>> 28) % 16), hexDigit ((w >>> 24) % 16), hexDigit ((w >>> 20) % 16),
   hexDigit ((w >>> 16) % 16), hexDigit ((w >>> 12) % 16), hexDigit ((w >>> 8) % 16),
   hexDigit ((w >>> 4) % 16), hexDigit (w % 16)]

/-- Embedding of `sha1_hash` (hash_utils.py lines 15–25): the uppercase hex
SHA-1 digest of the UTF-8 encoded text, as a list of 40 characters. -/
def sha1_hash (text : String) : List Char :=
  let h := sha1Words (utf8Encode text)
  wordHex h.1 ++ wordHex h.2.1 ++ wordHex h.2.2.1 ++ wordHex h.2.2.2.1 ++ wordHex h.2.2.2.2

/-! ## hash_utils.py — the breach check

`check_breach` is embedded as a function of the password and of the network
collaborator, modelled as a map from the request URL to an outcome: the
response body on HTTP success, or one of the three failure modes caught by
the `except` clauses (httpx.TimeoutException, httpx.HTTPStatusError with a
status code, or any other exception with its message).  Alongside the
`BreachResult` the embedding returns the list of URLs requested, so that the
privacy contract (exactly one request, carrying only the 5-character hash
prefix) is a provable statement. -/

/-- Python `HIBP_API_URL`. -/
def HIBP_API_URL : String := "https://api.pwnedpasswords.com/range/"

/-- Outcome of the single `client.get` call, as discriminated by
`response.raise_for_status()` and the `except` clauses. -/
inductive NetOutcome where
  | success (body : List Char)
  | timeout
  | httpError (status : Nat)
  | netError (msg : String)

/-- The result dict of `check_breach`. -/
structure BreachResult where
  breached : Bool
  count : Int
  error : Option String
deriving DecidableEq

/-- Python `str.split(sep)` for a single-character separator, keeping empty
pieces. -/
def splitOnChar (sep : Char) : List Char → List (List Char)
  | [] => [[]]
  | c :: rest =>
    match splitOnChar sep rest with
    | [] => [[]]
    | h :: tl => if c = sep then [] :: h :: tl else (c :: h) :: tl

/-- Python `str.splitlines()` for `\n`-delimited text: like splitting on the
newline character, except that an empty final piece (from a trailing newline)
is dropped and the empty string yields no lines.  (The `\r` variants accepted
by Python are not modelled; the bodies considered here are `\n`-delimited, as
the specification states.) -/
def splitlines (l : List Char) : List (List Char) :=
  if l.isEmpty then []
  else
    let parts := splitOnChar ('\n') l
    if parts.getLast? = some [] then parts.dropLast else parts

/-- Python `str.strip()`: remove leading and trailing whitespace. -/
def stripChars (l : List Char) : List Char :=
  ((l.dropWhile Char.isWhitespace).reverse.dropWhile Char.isWhitespace).reverse

/-- Decimal digit test and value. -/
def isDigits (l : List Char) : Bool := !l.isEmpty && l.all Char.isDigit

/-- Value of a decimal digit string. -/
def parseNatDigits (l : List Char) : Nat := l.foldl (fun a c => a * 10 + (c.toNat - 48)) 0

/-- Model of Python `int(s)` on an already-stripped string: an optional sign
followed by at least one decimal digit; anything else raises `ValueError`,
modelled as `none`. -/
def parseInt (l : List Char) : Option Int :=
  match l with
  | [] => none
  | c :: rest =>
    if c = ('-') then (if isDigits rest then some (-(parseNatDigits rest : Int)) else none)
    else if c = ('+') then (if isDigits rest then some ((parseNatDigits rest : Int)) else none)
    else (if isDigits (c :: rest) then some ((parseNatDigits (c :: rest) : Int)) else none)

/-- The response-scanning loop of `check_breach` (hash_utils.py lines 61–70):
find the first line that splits on `:` into exactly two parts whose stripped
first part equals the local hash remainder, and return its count.  A
non-numeric count raises `ValueError`, which the enclosing
`except Exception` clause converts to a generic network error. -/
def scanBody (sfx : List Char) : List (List Char) → BreachResult
  | [] => { breached := false, count := 0, error := none }
  | line :: rest =>
    match splitOnChar (':') line with
    | [p0, p1] =>
      if stripChars p0 = sfx then
        match parseInt (stripChars p1) with
        | some n => { breached := true, count := n, error := none }
        | none => { breached := false, count := 0,
                    error := some ("Network error: invalid literal for int() with base 10: "
                      ++ String.mk (stripChars p1)) }
      else scanBody sfx rest
    | _ => scanBody sfx rest

/-- Embedding of `check_breach` (hash_utils.py lines 28–77).  The second
component is the list of URLs requested from the collaborator — always
exactly one, built from the 5-character hash prefix. -/
def check_breach (password : String) (net : String → NetOutcome) :
    BreachResult × List String :=
  let full_hash := sha1_hash password
  let pfx := full_hash.take 5
  let sfx := full_hash.drop 5
  let url := HIBP_API_URL ++ String.mk pfx
  (match net url with
   | NetOutcome.success body => scanBody sfx (splitlines body)
   | NetOutcome.timeout =>
     { breached := false, count := 0, error := some ("Request timed out. Please try again.") }
   | NetOutcome.httpError status =>
     { breached := false, count := 0, error := some ("API error: " ++ toString status) }
   | NetOutcome.netError msg =>
     { breached := false, count := 0, error := some ("Network error: " ++ msg) },
   [url])

/-! ## C2: the privacy contract of the breach check -/

theorem sha1_hash_length (text : String) : (sha1_hash text).length = 40 := by
  simp [sha1_hash, wordHex]

/-- C2: for every password and every collaborator behaviour, `check_breach`
issues exactly one outbound request, whose URL carries exactly the first five
hexadecimal characters of the uppercase SHA-1 digest of the UTF-8 encoded
password — never the full 40-character hash (the sent prefix is a strictly
shorter string) and never the plaintext (the request is built from the digest
characters alone). -/
theorem c2_breach_request_privacy (password : String) (net : String → NetOutcome) :
    (check_breach password net).2
        = [HIBP_API_URL ++ String.mk ((sha1_hash password).take 5)] ∧
    ((sha1_hash password).take 5).length = 5 ∧
    (sha1_hash password).length = 40 ∧
    (sha1_hash password).take 5 ≠ sha1_hash password := by
  refine ⟨rfl, ?_, sha1_hash_length password, ?_⟩
  · rw [List.length_take, sha1_hash_length]
    norm_num
  · intro hEq
    have h := congrArg List.length hEq
    rw [List.length_take, sha1_hash_length] at h
    norm_num at h

/-! ## C3: failures never escape `check_breach` -/

theorem scanBody_error_inv (sfx : List Char) :
    ∀ lines, (scanBody sfx lines).error ≠ none →
      (scanBody sfx lines).breached = false ∧ (scanBody sfx lines).count = 0 := by
  intro lines
  induction lines with
  | nil => intro h; exact absurd rfl h
  | cons line rest ih =>
    intro h
    rw [scanBody] at h ⊢
    rcases hsp : splitOnChar (':') line with _ | ⟨p0, _ | ⟨p1, _ | ⟨p2, tl⟩⟩⟩ <;>
      simp only [hsp] at h ⊢
    · exact ih h
    · exact ih h
    · by_cases hm : stripChars p0 = sfx
      · rw [if_pos hm] at h ⊢
        rcases hpi : parseInt (stripChars p1) with _ | n <;> simp only [hpi] at h ⊢
        all_goals trivial
      · rw [if_neg hm] at h ⊢
        exact ih h
    · exact ih h

/-- C3: `check_breach` never propagates a failure to its caller: a timeout, a
non-2xx HTTP status and any other transport failure each produce the
documented structured result with `breached = false` and `count = 0`, and in
every result whatsoever an error message implies `breached = false` and
`count = 0`. -/
theorem c3_check_breach_error_handling (password : String) (net : String → NetOutcome) :
    (∀ e, ((check_breach password net).1).error = some e →
      ((check_breach password net).1).breached = false ∧
      ((check_breach password net).1).count = 0) ∧
    (net (HIBP_API_URL ++ String.mk ((sha1_hash password).take 5)) = NetOutcome.timeout →
      (check_breach password net).1 =
        { breached := false, count := 0,
          error := some ("Request timed out. Please try again.") }) ∧
    (∀ status, net (HIBP_API_URL ++ String.mk ((sha1_hash password).take 5))
        = NetOutcome.httpError status →
      (check_breach password net).1 =
        { breached := false, count := 0, error := some ("API error: " ++ toString status) }) ∧
    (∀ msg, net (HIBP_API_URL ++ String.mk ((sha1_hash password).take 5))
        = NetOutcome.netError msg →
      (check_breach password net).1 =
        { breached := false, count := 0, error := some ("Network error: " ++ msg) }) := by
  refine ⟨?_, ?_, ?_, ?_⟩
  · intro e he
    rcases hn : net (HIBP_API_URL ++ String.mk ((sha1_hash password).take 5))
      with body | _ | status | msg <;>
      simp only [check_breach, hn] at he ⊢
    · exact scanBody_error_inv _ _ (by rw [he]; exact Option.some_ne_none e)
    · trivial
    · trivial
    · trivial
  · intro hn
    simp only [check_breach, hn]
  · intro status hn
    simp only [check_breach, hn]
  · intro msg hn
    simp only [check_breach, hn]

/-- Witness for C3 at a concrete input: a timeout on the lookup for `"abc"`. -/
theorem c3_check_breach_error_handling_witness :
    (check_breach ("abc") (fun _ => NetOutcome.timeout)).1 =
      { breached := false, count := 0,
        error := some ("Request timed out. Please try again.") } :=
  (c3_check_breach_error_handling ("abc") (fun _ => NetOutcome.timeout)).2.1 rfl

/-! ## C7: well-formed response bodies

The claim quantifies over bodies made of newline-delimited `SUFFIX:COUNT`
records.  A record is a pair of a suffix string (no `:`, no newline, no
whitespace — hexadecimal suffixes satisfy this) and a count rendered in
decimal. -/

/-- One decimal digit character. -/
def digitChar (d : Nat) : Char := ascii_digits.getD d ('0')

/-- Standard decimal rendering of a natural number. -/
def natDigits (n : Nat) : List Char :=
  if _h : n < 10 then [digitChar n]
  else natDigits (n / 10) ++ [digitChar (n % 10)]
termination_by n
decreasing_by exact Nat.div_lt_self (by omega) (by omega)

/-- Characters allowed in a record suffix. -/
def goodSfxChar (c : Char) : Bool := !(c = (':') || c = ('\n') || c.isWhitespace)

/-- Well-formedness of a record list. -/
def wfRecords (records : List (List Char × Nat)) : Prop :=
  ∀ r ∈ records, r.1.all goodSfxChar = true

/-- The text of one `SUFFIX:COUNT` record. -/
def renderRecord (r : List Char × Nat) : List Char := r.1 ++ (':') :: natDigits r.2

/-- Join pieces with a single newline between them. -/
def joinNL : List (List Char) → List Char
  | [] => []
  | [l] => l
  | l :: ls@(_ :: _) => l ++ ('\n') :: joinNL ls

/-- The newline-delimited body of a record list. -/
def renderBody (records : List (List Char × Nat)) : List Char :=
  joinNL (records.map renderRecord)

theorem digitChar_mem (d : Nat) (hd : d < 10) : digitChar d ∈ ascii_digits := by
  have hlen : ascii_digits.length = 10 := rfl
  unfold digitChar
  rw [List.getD_eq_getElem?_getD, List.getElem?_eq_getElem (by omega)]
  exact List.getElem_mem _

theorem natDigits_sub (n : Nat) : ∀ c ∈ natDigits n, c ∈ ascii_digits := by
  induction n using Nat.strong_induction_on with
  | _ n ih =>
    rw [natDigits]
    split
    · rename_i h
      intro c hc
      rw [List.mem_singleton] at hc
      subst hc
      exact digitChar_mem n h
    · rename_i h
      intro c hc
      rcases List.mem_append.1 hc with h1 | h1
      · exact ih (n / 10) (Nat.div_lt_self (by omega) (by omega)) c h1
      · rw [List.mem_singleton] at h1
        subst h1
        exact digitChar_mem (n % 10) (Nat.mod_lt _ (by omega))

theorem natDigits_ne_nil (n : Nat) : natDigits n ≠ [] := by
  rw [natDigits]
  split <;> simp

theorem natDigits_shape (n : Nat) : ∃ d tl, d < 10 ∧ natDigits n = digitChar d :: tl := by
  induction n using Nat.strong_induction_on with
  | _ n ih =>
    rw [natDigits]
    split
    · rename_i h
      exact ⟨n, [], h, rfl⟩
    · rename_i h
      obtain ⟨d, tl, hd, heq⟩ := ih (n / 10) (Nat.div_lt_self (by omega) (by omega))
      exact ⟨d, tl ++ [digitChar (n % 10)], hd, by rw [heq]; rfl⟩

theorem digitChar_toNat (d : Nat) (hd : d < 10) : (digitChar d).toNat - 48 = d := by
  interval_cases d <;> rfl

theorem parseNatDigits_append (l : List Char) (c : Char) :
    parseNatDigits (l ++ [c]) = parseNatDigits l * 10 + (c.toNat - 48) := by
  simp [parseNatDigits, List.foldl_append]

theorem parseNatDigits_natDigits (n : Nat) : parseNatDigits (natDigits n) = n := by
  induction n using Nat.strong_induction_on with
  | _ n ih =>
    rw [natDigits]
    split
    · rename_i h
      show parseNatDigits [digitChar n] = n
      show (0 * 10 + ((digitChar n).toNat - 48)) = n
      rw [digitChar_toNat n h]
      omega
    · rename_i h
      rw [parseNatDigits_append, ih (n / 10) (Nat.div_lt_self (by omega) (by omega)),
        digitChar_toNat (n % 10) (Nat.mod_lt _ (by omega))]
      omega

theorem ascii_digits_isDigit : ∀ c ∈ ascii_digits, c.isDigit = true := by decide

theorem ascii_digits_good : ∀ c ∈ ascii_digits,
    ¬(c = (':')) ∧ ¬(c = ('\n')) ∧ c.isWhitespace = false ∧
      ¬(c = ('-')) ∧ ¬(c = ('+')) := by decide

theorem isDigits_natDigits (n : Nat) : isDigits (natDigits n) = true := by
  have hne := natDigits_ne_nil n
  have hE : (natDigits n).isEmpty = false := by
    rcases hE2 : (natDigits n).isEmpty with _ | _
    · rfl
    · exact absurd (List.isEmpty_iff.1 hE2) hne
  unfold isDigits
  rw [hE]
  simp only [Bool.not_false, Bool.true_and, List.all_eq_true]
  intro c hc
  exact ascii_digits_isDigit c (natDigits_sub n c hc)

theorem parseInt_natDigits (n : Nat) : parseInt (natDigits n) = some ((n : Int)) := by
  obtain ⟨d, tl, hd, heq⟩ := natDigits_shape n
  have hsign := ascii_digits_good _ (digitChar_mem d hd)
  rw [heq, parseInt, if_neg hsign.2.2.2.1, if_neg hsign.2.2.2.2, ← heq,
    if_pos (isDigits_natDigits n), parseNatDigits_natDigits]

theorem dropWhile_eq_self_of_all (p : Char → Bool) (l : List Char)
    (h : ∀ c ∈ l, p c = false) : l.dropWhile p = l := by
  cases l with
  | nil => rfl
  | cons a t =>
    rw [List.dropWhile_cons, h a (List.mem_cons_self a t)]
    simp

theorem stripChars_eq_self (l : List Char) (h : ∀ c ∈ l, c.isWhitespace = false) :
    stripChars l = l := by
  unfold stripChars
  rw [dropWhile_eq_self_of_all _ _ h,
    dropWhile_eq_self_of_all _ _ (fun c hc => h c (List.mem_reverse.1 hc)),
    List.reverse_reverse]

theorem splitOnChar_ne_nil (sep : Char) (l : List Char) : splitOnChar sep l ≠ [] := by
  cases l with
  | nil => simp [splitOnChar]
  | cons c rest =>
    rcases h : splitOnChar sep rest with _ | ⟨hd, tl⟩ <;>
      by_cases hcs : c = sep <;>
      simp [splitOnChar, h, hcs]

theorem splitOnChar_no_sep (sep : Char) :
    ∀ (l : List Char), (∀ c ∈ l, ¬(c = sep)) → splitOnChar sep l = [l] := by
  intro l
  induction l with
  | nil => intro _; rfl
  | cons c rest ih =>
    intro h
    rw [splitOnChar, ih (fun x hx => h x (List.mem_cons_of_mem c hx))]
    simp only [if_neg (h c (List.mem_cons_self c rest))]

theorem splitOnChar_append_sep (sep : Char) :
    ∀ (l : List Char), (∀ c ∈ l, ¬(c = sep)) →
      ∀ rest, splitOnChar sep (l ++ sep :: rest) = l :: splitOnChar sep rest := by
  intro l
  induction l with
  | nil =>
    intro _ rest
    rw [List.nil_append, splitOnChar]
    rcases h : splitOnChar sep rest with _ | ⟨hd, tl⟩
    · exact absurd h (splitOnChar_ne_nil sep rest)
    · simp
  | cons c t ih =>
    intro hl rest
    have hc : ¬(c = sep) := hl c (List.mem_cons_self _ _)
    rw [List.cons_append, splitOnChar,
      ih (fun x hx => hl x (List.mem_cons_of_mem _ hx)) rest]
    simp only [if_neg hc]

theorem getLast?_mem_list : ∀ (ls : List (List Char)) (x : List Char),
    ls.getLast? = some x → x ∈ ls := by
  intro ls
  induction ls with
  | nil => intro x h; simp at h
  | cons a t ih =>
    intro x h
    cases t with
    | nil =>
      simp at h
      subst h
      exact List.mem_cons_self _ _
    | cons b t2 =>
      rw [List.getLast?_cons_cons] at h
      exact List.mem_cons_of_mem a (ih x h)

theorem splitOnChar_joinNL :
    ∀ (ls : List (List Char)), ls ≠ [] → (∀ l ∈ ls, ∀ c ∈ l, ¬(c = ('\n'))) →
      splitOnChar ('\n') (joinNL ls) = ls := by
  intro ls
  induction ls with
  | nil => intro h _; exact absurd rfl h
  | cons l rest ih =>
    intro _ hno
    cases rest with
    | nil =>
      simp only [joinNL]
      exact splitOnChar_no_sep _ l (hno l (List.mem_cons_self _ _))
    | cons l2 rest2 =>
      have hj : joinNL (l :: l2 :: rest2) = l ++ ('\n') :: joinNL (l2 :: rest2) := by
        simp only [joinNL]
      rw [hj, splitOnChar_append_sep _ l (hno l (List.mem_cons_self _ _)),
        ih (by simp) (fun x hx => hno x (List.mem_cons_of_mem _ hx))]

theorem splitlines_joinNL (ls : List (List Char)) (hne : ls ≠ [])
    (hnn : ∀ l ∈ ls, l ≠ []) (hnl : ∀ l ∈ ls, ∀ c ∈ l, ¬(c = ('\n'))) :
    splitlines (joinNL ls) = ls := by
  have hjoin_ne : joinNL ls ≠ [] := by
    cases ls with
    | nil => exact absurd rfl hne
    | cons l rest =>
      cases rest with
      | nil =>
        simp only [joinNL]
        exact hnn l (List.mem_cons_self _ _)
      | cons l2 r2 =>
        intro h
        have hj : joinNL (l :: l2 :: r2) = l ++ ('\n') :: joinNL (l2 :: r2) := by
          simp only [joinNL]
        rw [hj] at h
        simp at h
  have hE : (joinNL ls).isEmpty = false := by
    rcases hE2 : (joinNL ls).isEmpty with _ | _
    · rfl
    · exact absurd (List.isEmpty_iff.1 hE2) hjoin_ne
  have hlast : ¬(ls.getLast? = some []) := fun h => hnn [] (getLast?_mem_list ls [] h) rfl
  rw [splitlines, hE]
  simp only [Bool.false_eq_true, if_false]
  rw [splitOnChar_joinNL ls hne hnl]
  simp only [if_neg hlast]

theorem goodSfxChar_spec (c : Char) (h : goodSfxChar c = true) :
    ¬(c = (':')) ∧ ¬(c = ('\n')) ∧ c.isWhitespace = false := by
  simp only [goodSfxChar, Bool.not_eq_eq_eq_not, Bool.not_true, Bool.or_eq_false_iff,
    decide_eq_false_iff_not] at h
  exact ⟨h.1.1, h.1.2, h.2⟩

theorem splitOnChar_renderRecord (r : List Char × Nat) (h : r.1.all goodSfxChar = true) :
    splitOnChar (':') (renderRecord r) = [r.1, natDigits r.2] := by
  rw [renderRecord,
    splitOnChar_append_sep _ r.1
      (fun c hc => (goodSfxChar_spec c (List.all_eq_true.1 h c hc)).1),
    splitOnChar_no_sep _ (natDigits r.2)
      (fun c hc => (ascii_digits_good c (natDigits_sub _ c hc)).1)]

theorem stripChars_wf (r : List Char × Nat) (h : r.1.all goodSfxChar = true) :
    stripChars r.1 = r.1 :=
  stripChars_eq_self _ (fun c hc => (goodSfxChar_spec c (List.all_eq_true.1 h c hc)).2.2)

theorem stripChars_natDigits (n : Nat) : stripChars (natDigits n) = natDigits n :=
  stripChars_eq_self _ (fun c hc => (ascii_digits_good c (natDigits_sub _ c hc)).2.2.1)

theorem scanBody_render_no_match (sfx : List Char) :
    ∀ (records : List (List Char × Nat)), wfRecords records →
      (∀ r ∈ records, r.1 ≠ sfx) →
      scanBody sfx (records.map renderRecord) =
        { breached := false, count := 0, error := none } := by
  intro records
  induction records with
  | nil => intro _ _; rfl
  | cons r rest ih =>
    intro hwf hno
    have hwf0 : r.1.all goodSfxChar = true := hwf r (List.mem_cons_self _ _)
    rw [List.map_cons, scanBody, splitOnChar_renderRecord r hwf0]
    have hcond : ¬(stripChars r.1 = sfx) := by
      rw [stripChars_wf r hwf0]
      exact hno r (List.mem_cons_self _ _)
    simp only [if_neg hcond]
    exact ih (fun x hx => hwf x (List.mem_cons_of_mem _ hx))
      (fun x hx => hno x (List.mem_cons_of_mem _ hx))

theorem scanBody_render_match (sfx : List Char) :
    ∀ (records : List (List Char × Nat)), wfRecords records →
      (∃ r ∈ records, r.1 = sfx) →
      (scanBody sfx (records.map renderRecord)).breached = true ∧
      (scanBody sfx (records.map renderRecord)).error = none ∧
      ∃ r ∈ records, r.1 = sfx ∧
        ((r.2 : Int) = (scanBody sfx (records.map renderRecord)).count) := by
  intro records
  induction records with
  | nil => intro _ h; simp at h
  | cons r rest ih =>
    intro hwf hex
    have hwf0 : r.1.all goodSfxChar = true := hwf r (List.mem_cons_self _ _)
    rw [List.map_cons, scanBody, splitOnChar_renderRecord r hwf0]
    by_cases hm : r.1 = sfx
    · have hcond : stripChars r.1 = sfx := by
        rw [stripChars_wf r hwf0]
        exact hm
      simp only [if_pos hcond]
      rw [stripChars_natDigits, parseInt_natDigits]
      exact ⟨rfl, rfl, r, List.mem_cons_self _ _, hm, rfl⟩
    · have hcond : ¬(stripChars r.1 = sfx) := by
        rw [stripChars_wf r hwf0]
        exact hm
      simp only [if_neg hcond]
      have hex' : ∃ x ∈ rest, x.1 = sfx := by
        obtain ⟨r0, hr0m, hr0⟩ := hex
        rcases List.mem_cons.1 hr0m with he | he
        · exact absurd (he ▸ hr0) hm
        · exact ⟨r0, he, hr0⟩
      obtain ⟨hb, herr, r', hr'm, hr'1, hr'2⟩ :=
        ih (fun x hx => hwf x (List.mem_cons_of_mem _ hx)) hex'
      exact ⟨hb, herr, r', List.mem_cons_of_mem _ hr'm, hr'1, hr'2⟩

theorem renderRecord_ne_nil (r : List Char × Nat) : renderRecord r ≠ [] := by
  rw [renderRecord]
  simp

theorem renderRecord_no_newline (r : List Char × Nat) (h : r.1.all goodSfxChar = true) :
    ∀ c ∈ renderRecord r, ¬(c = ('\n')) := by
  intro c hc
  rw [renderRecord] at hc
  rcases List.mem_append.1 hc with h1 | h1
  · exact (goodSfxChar_spec c (List.all_eq_true.1 h c h1)).2.1
  · rcases List.mem_cons.1 h1 with h2 | h2
    · subst h2; decide
    · exact (ascii_digits_good c (natDigits_sub _ c h2)).2.1

/-- C7: for every well-formed newline-delimited `SUFFIX:COUNT` response body,
`check_breach` returns breached = true with the matching record's count and no
error when some record's suffix equals the locally computed 35-character hash
remainder exactly, and returns breached = false, count = 0, no error when no
record matches. -/
theorem c7_check_breach_response_parsing (password : String)
    (records : List (List Char × Nat)) (hwf : wfRecords records) :
    ((sha1_hash password).drop 5).length = 35 ∧
    ((∃ r ∈ records, r.1 = (sha1_hash password).drop 5) →
      ((check_breach password
          (fun _ => NetOutcome.success (renderBody records))).1.breached = true ∧
       (check_breach password
          (fun _ => NetOutcome.success (renderBody records))).1.error = none ∧
       (∃ r ∈ records, r.1 = (sha1_hash password).drop 5 ∧
         (r.2 : Int) = (check_breach password
           (fun _ => NetOutcome.success (renderBody records))).1.count))) ∧
    ((∀ r ∈ records, r.1 ≠ (sha1_hash password).drop 5) →
      (check_breach password (fun _ => NetOutcome.success (renderBody records))).1 =
        { breached := false, count := 0, error := none }) := by
  have hlen : ((sha1_hash password).drop 5).length = 35 := by
    rw [List.length_drop, sha1_hash_length]
  have hcb : (check_breach password (fun _ => NetOutcome.success (renderBody records))).1 =
      scanBody ((sha1_hash password).drop 5) (splitlines (renderBody records)) := rfl
  cases records with
  | nil =>
    refine ⟨hlen, ?_, ?_⟩
    · intro h
      simp at h
    · intro _
      rw [hcb, show renderBody ([] : List (List Char × Nat)) = [] from by
        simp [renderBody, joinNL]]
      rfl
  | cons r0 rest =>
    have hlines : splitlines (renderBody (r0 :: rest)) = (r0 :: rest).map renderRecord := by
      rw [renderBody]
      exact splitlines_joinNL _ (by simp)
        (by
          intro l hl
          obtain ⟨r, _, hr⟩ := List.mem_map.1 hl
          exact hr ▸ renderRecord_ne_nil r)
        (by
          intro l hl
          obtain ⟨r, hrm, hr⟩ := List.mem_map.1 hl
          exact hr ▸ renderRecord_no_newline r (hwf r hrm))
    refine ⟨hlen, ?_, ?_⟩
    · intro hex
      rw [hcb, hlines]
      exact scanBody_render_match _ _ hwf hex
    · intro hno
      rw [hcb, hlines]
      exact scanBody_render_no_match _ _ hwf hno

/-- Witness for C7 at a concrete input: a well-formed single-record body whose
suffix does not match the hash remainder of `"pw"`. -/
theorem c7_check_breach_response_parsing_witness :
    ((sha1_hash ("pw")).drop 5).length = 35 ∧
    ((∃ r ∈ [((['A', 'B'] : List Char), (7 : Nat))], r.1 = (sha1_hash ("pw")).drop 5) →
      ((check_breach ("pw")
          (fun _ => NetOutcome.success (renderBody [(['A', 'B'], 7)]))).1.breached = true ∧
       (check_breach ("pw")
          (fun _ => NetOutcome.success (renderBody [(['A', 'B'], 7)]))).1.error = none ∧
       (∃ r ∈ [((['A', 'B'] : List Char), (7 : Nat))], r.1 = (sha1_hash ("pw")).drop 5 ∧
         (r.2 : Int) = (check_breach ("pw")
           (fun _ => NetOutcome.success (renderBody [(['A', 'B'], 7)]))).1.count))) ∧
    ((∀ r ∈ [((['A', 'B'] : List Char), (7 : Nat))], r.1 ≠ (sha1_hash ("pw")).drop 5) →
      (check_breach ("pw") (fun _ => NetOutcome.success (renderBody [(['A', 'B'], 7)]))).1 =
        { breached := false, count := 0, error := none }) :=
  c7_check_breach_response_parsing ("pw") [(['A', 'B'], 7)] (by unfold wfRecords; decide)

end CypherCraft
